import Mathlib

/-
Shallow embedding of src/main.cpp, the OpenVINO custom-operator tutorial
driver.  The program is a single linear procedure: register a custom op,
enumerate devices, read and compile a model, fill three input tensors with a
fixed-seed pseudorandom sequence, run inference once, verify the output
against the reference formula (in0 + in1) * in2 with tolerance 1e-3, and
finally run a 30-second stress loop.

Modelling conventions:
* 32-bit machine integers are Nat with explicit reduction modulo 2^32 where
  the C++ semantics wraps.
* float values are modelled as rationals; the claims settled here concern
  control flow, determinism and ranges, not rounding.
* calls into the external inference engine are modelled by an environment
  record whose fallible entries return Except values; throwing a C++
  exception is the error case.
* console output is modelled as lists of LogLine values, one constructor per
  distinct print statement of main.cpp; stdout and stderr are separate lists.
-/

/-- One line of console output of main.cpp, abstracted by print site. -/
inductive LogLine where
  | registered
  | gpuNotFound
  | availDevices (devices : List String)
  | loadingConfig
  | readingModel
  | compiling
  | generating (h w : ℕ)
  | runningInference
  | verifying
  | mismatch (idx : ℕ) (got expected : ℚ)
  | successLine
  | failureLine (maxDiff : ℚ)
  | stressStart
  | progress (iter : ℕ) (time : ℚ)
  | stressDone (iter : ℕ)
  | exception (msg : String)
deriving DecidableEq

/-- Tests whether a log line is the caught-exception message of the outermost
catch block. -/
def isExc : LogLine → Bool
  | LogLine.exception _ => true
  | _ => false

/-- Tests whether a log line is the final stress-test iteration report. -/
def isStressDone : LogLine → Bool
  | LogLine.stressDone _ => true
  | _ => false

/-- Tests whether a log line is a stress-loop progress report. -/
def isProgress : LogLine → Bool
  | LogLine.progress _ _ => true
  | _ => false

/-- Character-list version of a prefix test, used to embed
std::string::find. -/
def leadsWith : List Char → List Char → Bool
  | [], _ => true
  | _ :: _, [] => false
  | a :: as, b :: bs => a == b && leadsWith as bs

/-- Embeds std::string::find pat != npos: does pat occur contiguously in s? -/
def containsSub (pat : List Char) : List Char → Bool
  | [] => leadsWith pat []
  | c :: cs => leadsWith pat (c :: cs) || containsSub pat cs

/-- The pattern searched for in each device name (main.cpp line 59). -/
def gpuPat : List Char := ['G', 'P', 'U']

/-- device.find("GPU") != std::string::npos from main.cpp line 59. -/
def containsGPU (s : String) : Bool := containsSub gpuPat s.data

/-- Element type and partial shape carried on one node port; the element type
is abstracted to a code, a partial-shape dimension is none when dynamic. -/
structure PortInfo where
  etype : ℕ
  pshape : List (Option ℕ)
deriving DecidableEq

/-- The part of a CustomAddMul node state that validate_and_infer_types can
see and change: its input ports and its single output port (none before the
first validation). -/
structure NodeState where
  inputs : List PortInfo
  output0 : Option PortInfo
deriving DecidableEq

/-- CustomAddMul::validate_and_infer_types (main.cpp lines 19-24): when the
node has at least one input, output 0 receives input 0's element type and
partial shape; nothing else is read or written. -/
def validateAndInferTypes (st : NodeState) : NodeState :=
  match st.inputs with
  | [] => st
  | p :: _ => { st with output0 := some ⟨p.etype, p.pshape⟩ }

/- std::mt19937 (used by fill_tensor, main.cpp line 39) as fixed by the C++
standard: mersenne_twister_engine with w=32, n=624, m=397, r=31,
a=0x9908B0DF, u=11, d=0xFFFFFFFF, s=7, b=0x9D2C5680, t=15, c=0xEFC60000,
l=18, f=1812433253, seeded with 42. -/

/-- The mt19937 twist recurrence: y combines the top bit of u with the low
31 bits of v; the result xors z with y shifted down once and, when y is odd,
with the constant a = 0x9908B0DF. -/
def mtTwist (u v z : ℕ) : ℕ :=
  z ^^^ (((u &&& 2147483648) ||| (v &&& 2147483647)) >>> 1) ^^^
    (if ((u &&& 2147483648) ||| (v &&& 2147483647)) % 2 = 1 then 2567483615 else 0)

/-- One step of the mt19937 state sequence for seed 42: entries 0..623 come
from the seeding recurrence, later entries from the twist recurrence.  xs is
the list of all earlier entries. -/
def mtNext (xs : List ℕ) (k : ℕ) : ℕ :=
  if k = 0 then 42 % 4294967296
  else if k < 624 then
    (1812433253 * (xs.getD (k - 1) 0 ^^^ (xs.getD (k - 1) 0 >>> 30)) + k) % 4294967296
  else
    mtTwist (xs.getD (k - 624) 0) (xs.getD (k - 623) 0) (xs.getD (k - 227) 0)

/-- The first k entries of the mt19937 (seed 42) state sequence. -/
def mtStateList : ℕ → List ℕ
  | 0 => []
  | k + 1 => mtStateList k ++ [mtNext (mtStateList k) k]

/-- Entry i of the mt19937 (seed 42) state sequence. -/
def mtState (i : ℕ) : ℕ := (mtStateList (i + 1)).getD i 0

/-- First tempering assignment: y ^= (y >> 11) & 0xFFFFFFFF. -/
def mtTemper1 (x : ℕ) : ℕ := x ^^^ ((x >>> 11) &&& 4294967295)

/-- Second tempering assignment: y ^= (y << 7) & 0x9D2C5680. -/
def mtTemper2 (x : ℕ) : ℕ := x ^^^ ((x <<< 7) &&& 2636928640)

/-- Third tempering assignment: y ^= (y << 15) & 0xEFC60000. -/
def mtTemper3 (x : ℕ) : ℕ := x ^^^ ((x <<< 15) &&& 4022730752)

/-- Fourth tempering assignment: y ^= y >> 18. -/
def mtTemper4 (x : ℕ) : ℕ := x ^^^ (x >>> 18)

/-- The mt19937 tempering transform applied to each raw state word. -/
def mtTemper (x : ℕ) : ℕ := mtTemper4 (mtTemper3 (mtTemper2 (mtTemper1 x)))

/-- The k-th 32-bit output of std::mt19937 seeded with 42 (k counted from 0):
the first generator call twists state entry 624 into existence and tempers
it. -/
def mtOutput (k : ℕ) : ℕ := mtTemper (mtState (624 + k))

/-- The k-th value written by fill_tensor.  The source draws
std::uniform_real_distribution<float>(0.0f, 1.0f) on the freshly seeded
engine; that library mapping is implementation-defined, and is modelled here
as the canonical map of one 32-bit draw into [0,1).  Determinism and the
[0,1) range are what the claims use. -/
def fillValue (k : ℕ) : ℚ := (mtOutput k : ℚ) / 4294967296

/-- fill_tensor (main.cpp lines 36-44): reseed with 42 and overwrite the
whole buffer, element i receiving the i-th draw; the written contents depend
only on the element count. -/
def fill_tensor (size : ℕ) : List ℚ := (List.range size).map fillValue

/-- The reference value the verification loop computes at index i
(main.cpp line 129). -/
def expectedAt (a b c : ℕ → ℚ) (i : ℕ) : ℚ := (a i + b i) * c i

/-- The absolute deviation the verification loop computes at index i
(main.cpp line 130). -/
def diffAt (o a b c : ℕ → ℚ) (i : ℕ) : ℚ := |o i - expectedAt a b c i|

/-- The mutable state of the verification loop: the success flag, the running
maximum deviation, and the mismatch lines printed so far. -/
structure VerifySt where
  success : Bool
  max_diff : ℚ
  lines : List LogLine
deriving DecidableEq

/-- One iteration of the verification loop (main.cpp lines 128-138): on a
deviation above 1e-3, clear the success flag, fold the deviation into
max_diff, and print the mismatch when the index is below 5. -/
def verifyBody (o a b c : ℕ → ℚ) (st : VerifySt) (i : ℕ) : VerifySt :=
  if 1 / 1000 < diffAt o a b c i then
    ⟨false, max st.max_diff (diffAt o a b c i),
      st.lines ++ if i < 5 then [LogLine.mismatch i (o i) (expectedAt a b c i)] else []⟩
  else st

/-- The whole verification loop over indices 0..size-1, started from the
initial state of main.cpp lines 126-127. -/
def verifyLoop (o a b c : ℕ → ℚ) (size : ℕ) : VerifySt :=
  (List.range size).foldl (verifyBody o a b c) ⟨true, 0, []⟩

/-- The summary line printed after the loop (main.cpp lines 140-144). -/
def verifyReport (st : VerifySt) : LogLine :=
  if st.success then LogLine.successLine else LogLine.failureLine st.max_diff

/-- What claim C2 says gets printed: the five tolerance violations with the
smallest indices, wherever they occur in the tensor.  This definition follows
the claim's words, to be compared with the lines the embedded loop actually
produces. -/
def specFirstFiveMismatches (o a b c : ℕ → ℚ) (size : ℕ) : List LogLine :=
  (((List.range size).filter (fun i => decide (1 / 1000 < diffAt o a b c i))).take 5).map
    (fun i => LogLine.mismatch i (o i) (expectedAt a b c i))

/-- The input-buffer contents after fill_tensor ran on a tensor of n
elements, read as the raw float pointer of the verification loop; reads past
the filled prefix (impossible when all tensors share one shape, the program's
data invariant) default to 0. -/
def fillAt (n : ℕ) : ℕ → ℚ := fun i => (fill_tensor n).getD i 0

/-- Reading spatial dimensions H and W from a shape (main.cpp lines
104-105): the source indexes positions 2 and 3 without any rank check; the
embedding returns none exactly when such an index is out of bounds. -/
def getHW (shape : List ℕ) : Option (ℕ × ℕ) :=
  match shape.get? 2, shape.get? 3 with
  | some h, some w => some (h, w)
  | _, _ => none

/-- Everything main.cpp receives from the external inference engine and the
wall clock.  Fallible engine calls are Except values (error = the call threw);
infer k is the k-th inference call overall (k = 0 is the verification run,
k ≥ 1 the stress iterations); elapsed k is the wall-clock time in seconds,
measured from the stress-loop start, observed after the k-th stress
iteration completes (elapsed 0 is the loop start). -/
structure DriverEnv where
  addExtension : Except String Unit
  getAvailableDevices : Except String (List String)
  readModel : Except String Unit
  compileModel : Except String Unit
  createInferRequest : Except String Unit
  getInputTensor : ℕ → Except String Unit
  getOutputTensor : Except String Unit
  inputShape : List ℕ
  inSize : ℕ → ℕ
  outSize : ℕ
  outData : ℕ → ℚ
  infer : ℕ → Except String Unit
  elapsed : ℕ → ℚ

/-- The stress loop (main.cpp lines 150-161) with explicit fuel: each
iteration runs one inference call, increments the counter, breaks when the
elapsed time has reached 30 seconds, and otherwise prints a progress line on
every 10th iteration.  none means the fuel ran out before the loop exited; a
thrown inference call propagates as the error case. -/
def stressLoop (env : DriverEnv) : ℕ → ℕ → List LogLine → Option (Except String (ℕ × List LogLine))
  | 0, _, _ => none
  | fuel + 1, iters, out =>
    match env.infer (iters + 1) with
    | Except.error e => some (Except.error e)
    | Except.ok _ =>
      let t := env.elapsed (iters + 1)
      if 30 ≤ t then some (Except.ok (iters + 1, out))
      else if (iters + 1) % 10 = 0 then
        stressLoop env fuel (iters + 1) (out ++ [LogLine.progress (iters + 1) t])
      else stressLoop env fuel (iters + 1) out

/-- The verification-loop result of the single diagnostic run: the output
buffer is compared against the three freshly filled input buffers over the
output element count (main.cpp lines 124-138). -/
def mainVerifySt (env : DriverEnv) : VerifySt :=
  verifyLoop env.outData (fillAt (env.inSize 0)) (fillAt (env.inSize 1)) (fillAt (env.inSize 2))
    env.outSize

/-- main (main.cpp lines 46-169) as a function of the engine environment:
the result is (exit code, stdout, stderr), none when either the stress-loop
fuel runs out or the program hits the undefined out-of-bounds shape read of
lines 104-105. -/
def mainRun (env : DriverEnv) (fuel : ℕ) : Option (ℕ × List LogLine × List LogLine) :=
  match env.addExtension with
  | Except.error e => some (1, [], [LogLine.exception e])
  | Except.ok _ =>
    let so1 := [LogLine.registered]
    match env.getAvailableDevices with
    | Except.error e => some (1, so1, [LogLine.exception e])
    | Except.ok devices =>
      let se1 := if devices.any containsGPU then []
        else [LogLine.gpuNotFound, LogLine.availDevices devices]
      let so2 := so1 ++ [LogLine.loadingConfig, LogLine.readingModel]
      match env.readModel with
      | Except.error e => some (1, so2, se1 ++ [LogLine.exception e])
      | Except.ok _ =>
        let so3 := so2 ++ [LogLine.compiling]
        match env.compileModel with
        | Except.error e => some (1, so3, se1 ++ [LogLine.exception e])
        | Except.ok _ =>
          match env.createInferRequest with
          | Except.error e => some (1, so3, se1 ++ [LogLine.exception e])
          | Except.ok _ =>
            match env.getInputTensor 0 with
            | Except.error e => some (1, so3, se1 ++ [LogLine.exception e])
            | Except.ok _ =>
              match env.getInputTensor 1 with
              | Except.error e => some (1, so3, se1 ++ [LogLine.exception e])
              | Except.ok _ =>
                match env.getInputTensor 2 with
                | Except.error e => some (1, so3, se1 ++ [LogLine.exception e])
                | Except.ok _ =>
                  match getHW env.inputShape with
                  | none => none
                  | some (hh, ww) =>
                    let so4 := so3 ++ [LogLine.generating hh ww, LogLine.runningInference]
                    match env.infer 0 with
                    | Except.error e => some (1, so4, se1 ++ [LogLine.exception e])
                    | Except.ok _ =>
                      match env.getOutputTensor with
                      | Except.error e => some (1, so4, se1 ++ [LogLine.exception e])
                      | Except.ok _ =>
                        let vst := mainVerifySt env
                        let so5 := so4 ++ [LogLine.verifying] ++ vst.lines ++
                          [verifyReport vst, LogLine.stressStart]
                        match stressLoop env fuel 0 [] with
                        | none => none
                        | some (Except.error e) => some (1, so5, se1 ++ [LogLine.exception e])
                        | some (Except.ok (iters, lines)) =>
                          some (0, so5 ++ lines ++ [LogLine.stressDone iters], se1)

/-- A fully healthy engine with a CPU-only device list, a rank-4 input
shape, empty tensors, and a clock that passes the 30-second mark after one
stress iteration; used to exhibit concrete runs. -/
def envOkSmall : DriverEnv where
  addExtension := Except.ok ()
  getAvailableDevices := Except.ok [String.mk ['C', 'P', 'U']]
  readModel := Except.ok ()
  compileModel := Except.ok ()
  createInferRequest := Except.ok ()
  getInputTensor := fun _ => Except.ok ()
  getOutputTensor := Except.ok ()
  inputShape := [1, 1, 2, 3]
  inSize := fun _ => 0
  outSize := 0
  outData := fun _ => 0
  infer := fun _ => Except.ok ()
  elapsed := fun k => if k = 0 then 0 else 31

/-- The same healthy engine but with a rank-3 model input shape, reaching
the out-of-bounds shape read. -/
def envRank3 : DriverEnv :=
  { envOkSmall with inputShape := [1, 3, 8] }

/-- The same healthy engine with a clock that first reaches the 30-second
mark when the 10th stress iteration completes, so the loop exits exactly at
its 10th iteration. -/
def envTenIters : DriverEnv :=
  { envOkSmall with elapsed := fun k => if k < 10 then 0 else 30 }

/- Helper lemmas. -/

theorem shiftRight_le_self (n k : ℕ) : n >>> k ≤ n := by
  rw [Nat.shiftRight_eq_div_pow]
  exact Nat.div_le_self _ _

theorem getD_lt_of_mem_lt {xs : List ℕ} {B d : ℕ} (h : ∀ x ∈ xs, x < B) (hd : d < B)
    (i : ℕ) : xs.getD i d < B := by
  rw [List.getD_eq_getElem?_getD]
  rcases lt_or_le i xs.length with hi | hi
  · rw [List.getElem?_eq_getElem hi]
    exact h _ (List.getElem_mem hi)
  · rw [List.getElem?_eq_none hi]
    exact hd

theorem mtTwist_lt {u v z : ℕ} (hz : z < 2 ^ 32) : mtTwist u v z < 2 ^ 32 := by
  unfold mtTwist
  have hy : ((u &&& 2147483648) ||| (v &&& 2147483647)) < 2 ^ 32 :=
    Nat.or_lt_two_pow (Nat.and_lt_two_pow u (by norm_num)) (Nat.and_lt_two_pow v (by norm_num))
  have h1 : ((u &&& 2147483648) ||| (v &&& 2147483647)) >>> 1 < 2 ^ 32 :=
    lt_of_le_of_lt (shiftRight_le_self _ _) hy
  have h2 : (if ((u &&& 2147483648) ||| (v &&& 2147483647)) % 2 = 1 then 2567483615 else 0) < 2 ^ 32 := by
    split <;> norm_num
  exact Nat.xor_lt_two_pow (Nat.xor_lt_two_pow hz h1) h2

theorem mtNext_lt {xs : List ℕ} (h : ∀ x ∈ xs, x < 2 ^ 32) (k : ℕ) :
    mtNext xs k < 2 ^ 32 := by
  have hg : ∀ i, xs.getD i 0 < 2 ^ 32 := fun i => getD_lt_of_mem_lt h (by norm_num) i
  unfold mtNext
  split
  · norm_num
  · split
    · exact Nat.mod_lt _ (by norm_num)
    · exact mtTwist_lt (hg _)

theorem mtStateList_lt (k : ℕ) : ∀ x ∈ mtStateList k, x < 2 ^ 32 := by
  induction k with
  | zero => simp [mtStateList]
  | succ k ih =>
    intro x hx
    rw [mtStateList, List.mem_append] at hx
    rcases hx with hx | hx
    · exact ih x hx
    · rw [List.mem_singleton] at hx
      rw [hx]
      exact mtNext_lt ih k

theorem mtState_lt (i : ℕ) : mtState i < 2 ^ 32 :=
  getD_lt_of_mem_lt (mtStateList_lt (i + 1)) (by norm_num) i

theorem mtTemper_lt {x : ℕ} (h : x < 2 ^ 32) : mtTemper x < 2 ^ 32 := by
  have h1 : mtTemper1 x < 2 ^ 32 :=
    Nat.xor_lt_two_pow h (Nat.and_lt_two_pow _ (by norm_num))
  have h2 : mtTemper2 (mtTemper1 x) < 2 ^ 32 :=
    Nat.xor_lt_two_pow h1 (Nat.and_lt_two_pow _ (by norm_num))
  have h3 : mtTemper3 (mtTemper2 (mtTemper1 x)) < 2 ^ 32 :=
    Nat.xor_lt_two_pow h2 (Nat.and_lt_two_pow _ (by norm_num))
  exact Nat.xor_lt_two_pow h3 (lt_of_le_of_lt (shiftRight_le_self _ _) h3)

theorem mtOutput_lt (k : ℕ) : mtOutput k < 2 ^ 32 := mtTemper_lt (mtState_lt _)

theorem fillValue_nonneg (k : ℕ) : 0 ≤ fillValue k := by
  unfold fillValue
  positivity

theorem fillValue_lt_one (k : ℕ) : fillValue k < 1 := by
  unfold fillValue
  rw [div_lt_one (by norm_num)]
  have := mtOutput_lt k
  have hcast : (mtOutput k : ℚ) < ((2 ^ 32 : ℕ) : ℚ) := by exact_mod_cast this
  calc (mtOutput k : ℚ) < ((2 ^ 32 : ℕ) : ℚ) := hcast
    _ = 4294967296 := by norm_num

theorem fill_getD (n i : ℕ) (h : i < n) : (fill_tensor n).getD i 0 = fillValue i := by
  rw [fill_tensor, List.getD_eq_getElem?_getD, List.getElem?_map, List.getElem?_range h]
  rfl

/-- C5: for every CustomAddMul node with at least one input,
validate_and_infer_types sets output 0's element type and partial shape to
those of input 0, leaves the inputs untouched, and its output is independent
of inputs 1 and 2 (replacing the whole input tail, even by shape-mismatched
ports, changes nothing, so no shape agreement is ever checked). -/
theorem validate_and_infer_uses_only_input0 (st : NodeState) (p : PortInfo)
    (rest : List PortInfo) (h : st.inputs = p :: rest) :
    (validateAndInferTypes st).output0 = some ⟨p.etype, p.pshape⟩ ∧
    (validateAndInferTypes st).inputs = st.inputs ∧
    ∀ (rest2 : List PortInfo) (o2 : Option PortInfo),
      (validateAndInferTypes ⟨p :: rest2, o2⟩).output0 = some ⟨p.etype, p.pshape⟩ := by
  obtain ⟨ins, o⟩ := st
  simp only at h
  subst h
  refine ⟨rfl, rfl, fun rest2 o2 => rfl⟩

/-- Concrete run of the C5 theorem: a node whose three inputs carry three
different, incompatible shapes still gets input 0's type and shape copied to
its output. -/
theorem validate_and_infer_uses_only_input0_app :
    (validateAndInferTypes ⟨[⟨0, [some 1, some 2]⟩, ⟨1, [some 9]⟩, ⟨2, []⟩], none⟩).output0 =
      some ⟨0, [some 1, some 2]⟩ :=
  (validate_and_infer_uses_only_input0 ⟨[⟨0, [some 1, some 2]⟩, ⟨1, [some 9]⟩, ⟨2, []⟩], none⟩
    ⟨0, [some 1, some 2]⟩ [⟨1, [some 9]⟩, ⟨2, []⟩] rfl).1

/-- C7: fill_tensor is deterministic.  The written sequence is a prefix of
one fixed stream, so any two fills of equal element count (in the same run
or across runs; every call reseeds with 42) write identical sequences, and
every written value lies in [0,1). -/
theorem fill_tensor_deterministic_in_range (n m : ℕ) :
    (n ≤ m → fill_tensor n = (fill_tensor m).take n) ∧
    (n = m → fill_tensor n = fill_tensor m) ∧
    ∀ x ∈ fill_tensor n, 0 ≤ x ∧ x < 1 := by
  refine ⟨?_, ?_, ?_⟩
  · intro h
    rw [fill_tensor, fill_tensor, ← List.map_take, List.take_range]
    rw [Nat.min_eq_left h]
  · rintro rfl
    rfl
  · intro x hx
    rw [fill_tensor, List.mem_map] at hx
    obtain ⟨k, _, rfl⟩ := hx
    exact ⟨fillValue_nonneg k, fillValue_lt_one k⟩

/-- Concrete run of the C7 theorem: two fills of one element each agree, and
a fill of one element is the one-element prefix of a fill of two. -/
theorem fill_tensor_deterministic_in_range_app :
    fill_tensor 1 = (fill_tensor 2).take 1 :=
  (fill_tensor_deterministic_in_range 1 2).1 (by norm_num)

/-- C9: after the fill phase the three input tensors hold element-wise
identical contents (each fill_tensor call reseeds with 42), so the reference
value (in0[i]+in1[i])*in2[i] is 2*x*x where x is the common filled value. -/
theorem inputs_identical_expected_double_square (n0 n1 n2 i : ℕ)
    (h0 : i < n0) (h1 : i < n1) (h2 : i < n2) :
    fillAt n0 i = fillValue i ∧ fillAt n1 i = fillValue i ∧ fillAt n2 i = fillValue i ∧
    expectedAt (fillAt n0) (fillAt n1) (fillAt n2) i = 2 * fillValue i * fillValue i := by
  have e0 : fillAt n0 i = fillValue i := fill_getD n0 i h0
  have e1 : fillAt n1 i = fillValue i := fill_getD n1 i h1
  have e2 : fillAt n2 i = fillValue i := fill_getD n2 i h2
  refine ⟨e0, e1, e2, ?_⟩
  rw [expectedAt, e0, e1, e2]
  ring

/-- Concrete run of the C9 theorem at element 0 of three one-element
tensors. -/
theorem inputs_identical_expected_double_square_app :
    fillAt 1 0 = fillValue 0 ∧ fillAt 1 0 = fillValue 0 ∧ fillAt 1 0 = fillValue 0 ∧
    expectedAt (fillAt 1) (fillAt 1) (fillAt 1) 0 = 2 * fillValue 0 * fillValue 0 :=
  inputs_identical_expected_double_square 1 1 1 0 (by norm_num) (by norm_num) (by norm_num)

theorem verify_foldl_success (o a b c : ℕ → ℚ) (l : List ℕ) (st : VerifySt) :
    ((l.foldl (verifyBody o a b c) st).success = true) ↔
      (st.success = true ∧ ∀ i ∈ l, diffAt o a b c i ≤ 1 / 1000) := by
  induction l generalizing st with
  | nil => simp
  | cons i t ih =>
    rw [List.foldl_cons, ih]
    by_cases hd : 1 / 1000 < diffAt o a b c i
    · simp only [verifyBody, if_pos hd]
      simp only [List.mem_cons]
      constructor
      · rintro ⟨h, -⟩
        exact absurd h (by simp)
      · rintro ⟨-, hall⟩
        exact absurd (hall i (Or.inl rfl)) (not_le.mpr hd)
    · simp only [verifyBody, if_neg hd]
      simp only [List.mem_cons]
      constructor
      · rintro ⟨hs, hall⟩
        refine ⟨hs, fun j hj => ?_⟩
        rcases hj with rfl | hj
        · exact not_lt.mp hd
        · exact hall j hj
      · rintro ⟨hs, hall⟩
        exact ⟨hs, fun j hj => hall j (Or.inr hj)⟩

theorem verify_foldl_max_mono (o a b c : ℕ → ℚ) (l : List ℕ) (st : VerifySt) :
    st.max_diff ≤ (l.foldl (verifyBody o a b c) st).max_diff := by
  induction l generalizing st with
  | nil => simp
  | cons i t ih =>
    rw [List.foldl_cons]
    refine le_trans ?_ (ih (verifyBody o a b c st i))
    unfold verifyBody
    split
    · exact le_max_left _ _
    · exact le_rfl

theorem verify_foldl_max_ge (o a b c : ℕ → ℚ) (l : List ℕ) (st : VerifySt) :
    ∀ i ∈ l, 1 / 1000 < diffAt o a b c i →
      diffAt o a b c i ≤ (l.foldl (verifyBody o a b c) st).max_diff := by
  induction l generalizing st with
  | nil => simp
  | cons i t ih =>
    intro j hj hdj
    rw [List.foldl_cons]
    rcases List.mem_cons.mp hj with rfl | hj
    · refine le_trans ?_ (verify_foldl_max_mono o a b c t (verifyBody o a b c st j))
      simp only [verifyBody, if_pos hdj]
      exact le_max_right _ _
    · exact ih (verifyBody o a b c st i) j hj hdj

theorem verify_foldl_max_attained (o a b c : ℕ → ℚ) (l : List ℕ) (st : VerifySt) :
    (l.foldl (verifyBody o a b c) st).max_diff = st.max_diff ∨
      ∃ i ∈ l, (l.foldl (verifyBody o a b c) st).max_diff = diffAt o a b c i ∧
        1 / 1000 < diffAt o a b c i := by
  induction l generalizing st with
  | nil => left; rfl
  | cons i t ih =>
    rw [List.foldl_cons]
    by_cases hd : 1 / 1000 < diffAt o a b c i
    · rcases ih (verifyBody o a b c st i) with h | ⟨j, hj, hjj, hdj⟩
      · rw [h]
        simp only [verifyBody, if_pos hd]
        rcases max_choice st.max_diff (diffAt o a b c i) with hm | hm
        · left; exact hm
        · right; exact ⟨i, List.mem_cons_self i t, hm, hd⟩
      · right; exact ⟨j, List.mem_cons_of_mem i hj, hjj, hdj⟩
    · have hb : verifyBody o a b c st i = st := by
        simp only [verifyBody, if_neg hd]
      rw [hb]
      rcases ih st with h | ⟨j, hj, hjj, hdj⟩
      · left; exact h
      · right; exact ⟨j, List.mem_cons_of_mem i hj, hjj, hdj⟩

theorem verify_foldl_lines (o a b c : ℕ → ℚ) (l : List ℕ) (st : VerifySt) :
    (l.foldl (verifyBody o a b c) st).lines = st.lines ++
      (l.filter (fun i => decide (1 / 1000 < diffAt o a b c i) && decide (i < 5))).map
        (fun i => LogLine.mismatch i (o i) (expectedAt a b c i)) := by
  induction l generalizing st with
  | nil => simp
  | cons i t ih =>
    rw [List.foldl_cons, ih]
    by_cases hd : 1 / 1000 < diffAt o a b c i
    · by_cases h5 : i < 5
      · rw [List.filter_cons_of_pos
          (by simp only [Bool.and_eq_true, decide_eq_true_eq]; exact ⟨hd, h5⟩)]
        simp only [verifyBody, if_pos hd, if_pos h5]
        simp
      · rw [List.filter_cons_of_neg
          (by simp only [Bool.and_eq_true, decide_eq_true_eq]; exact fun hcon => h5 hcon.2)]
        simp only [verifyBody, if_pos hd, if_neg h5]
        simp
    · rw [List.filter_cons_of_neg
        (by simp only [Bool.and_eq_true, decide_eq_true_eq]; exact fun hcon => hd hcon.1)]
      simp only [verifyBody, if_neg hd]

/-- C1: the verification step reports SUCCESS if and only if every element
of the output is within 1e-3 of (in0[i]+in1[i])*in2[i]; otherwise it reports
FAILURE together with the maximum observed absolute deviation over all
elements (the reported value is attained at some element and dominates every
element's deviation). -/
theorem verify_reports_success_iff_within_tol (o a b c : ℕ → ℚ) (n : ℕ) :
    (verifyReport (verifyLoop o a b c n) = LogLine.successLine ↔
      ∀ i < n, diffAt o a b c i ≤ 1 / 1000) ∧
    ∀ M, verifyReport (verifyLoop o a b c n) = LogLine.failureLine M →
      (∃ i < n, M = diffAt o a b c i) ∧ (∀ j < n, diffAt o a b c j ≤ M) ∧ 1 / 1000 < M := by
  have hsucc : (verifyLoop o a b c n).success = true ↔ ∀ i < n, diffAt o a b c i ≤ 1 / 1000 := by
    rw [verifyLoop, verify_foldl_success]
    simp [List.mem_range]
  constructor
  · rcases hs : (verifyLoop o a b c n).success with _ | _
    · rw [verifyReport, if_neg (by rw [hs]; exact Bool.false_ne_true)]
      constructor
      · intro hcon
        exact absurd hcon (by simp)
      · intro hall
        rw [← hsucc] at hall
        rw [hs] at hall
        exact absurd hall (by simp)
    · rw [verifyReport, if_pos hs]
      simp only [true_iff]
      exact hsucc.mp hs
  · intro M hM
    have hs : (verifyLoop o a b c n).success = false := by
      rcases hs : (verifyLoop o a b c n).success with _ | _
      · rfl
      · rw [verifyReport, if_pos hs] at hM
        exact absurd hM (by simp)
    have hMeq : M = (verifyLoop o a b c n).max_diff := by
      rw [verifyReport, if_neg (by rw [hs]; exact Bool.false_ne_true)] at hM
      exact (LogLine.failureLine.injEq _ _).mp hM.symm
    have hviol : ∃ i < n, 1 / 1000 < diffAt o a b c i := by
      by_contra hcon
      push_neg at hcon
      have : (verifyLoop o a b c n).success = true := hsucc.mpr hcon
      rw [hs] at this
      exact absurd this (by simp)
    obtain ⟨i0, hi0, hd0⟩ := hviol
    have hge : ∀ j ∈ List.range n, 1 / 1000 < diffAt o a b c j →
        diffAt o a b c j ≤ (verifyLoop o a b c n).max_diff :=
      verify_foldl_max_ge o a b c (List.range n) ⟨true, 0, []⟩
    have hatt : (verifyLoop o a b c n).max_diff = (0 : ℚ) ∨
        ∃ i ∈ List.range n, (verifyLoop o a b c n).max_diff = diffAt o a b c i ∧
          1 / 1000 < diffAt o a b c i :=
      verify_foldl_max_attained o a b c (List.range n) ⟨true, 0, []⟩
    have hMb : 1 / 1000 < (verifyLoop o a b c n).max_diff :=
      lt_of_lt_of_le hd0 (hge i0 (List.mem_range.mpr hi0) hd0)
    rcases hatt with hzero | ⟨j0, hj0, hjeq, hjd⟩
    · rw [hzero] at hMb
      exact absurd hMb (by norm_num)
    · refine ⟨⟨j0, List.mem_range.mp hj0, by rw [hMeq, hjeq]⟩, ?_, by rw [hMeq]; exact hMb⟩
      intro j hj
      by_cases hdj : 1 / 1000 < diffAt o a b c j
      · rw [hMeq]
        exact hge j (List.mem_range.mpr hj) hdj
      · rw [hMeq]
        exact le_trans (not_lt.mp hdj) (le_of_lt hMb)

/-- Concrete run of the C1 theorem: deviation 0 everywhere on a one-element
output reports SUCCESS. -/
theorem verify_reports_success_iff_within_tol_app :
    verifyReport (verifyLoop (fun _ => 0) (fun _ => 0) (fun _ => 0) (fun _ => 0) 1) =
      LogLine.successLine :=
  (verify_reports_success_iff_within_tol (fun _ => 0) (fun _ => 0) (fun _ => 0) (fun _ => 0) 1).1.mpr
    (by intro i _; norm_num [diffAt, expectedAt])

/-- Counterexample to C2 as stated: on a 6-element output whose only
tolerance violation sits at index 5, the loop prints nothing, while the
claimed behaviour (print the five violations with the smallest indices,
wherever they occur) would print that violation. -/
theorem printed_mismatches_not_first_five :
    (verifyLoop (fun i => if i = 5 then (1 : ℚ) else 0) (fun _ => 0) (fun _ => 0) (fun _ => 0)
      6).lines = [] ∧
    specFirstFiveMismatches (fun i => if i = 5 then (1 : ℚ) else 0) (fun _ => 0) (fun _ => 0)
      (fun _ => 0) 6 = [LogLine.mismatch 5 1 0] ∧
    ([] : List LogLine) ≠ [LogLine.mismatch 5 1 0] := by
  refine ⟨?_, ?_, by simp⟩
  · rw [verifyLoop, verify_foldl_lines]
    norm_num [List.range_succ, List.filter_cons, List.filter_nil, diffAt, expectedAt]
  · norm_num [specFirstFiveMismatches, List.range_succ, List.filter_cons, List.filter_nil,
      diffAt, expectedAt]

/-- C2 amended: every tolerance violation clears the success flag and is
folded into the reported maximum deviation, and the mismatch lines printed
are exactly the violations whose index is below 5 (the code tests the
element index against 5, not the count of mismatches seen so far). -/
theorem printed_mismatches_are_low_index_violations (o a b c : ℕ → ℚ) (n : ℕ) :
    (verifyLoop o a b c n).lines =
      ((List.range n).filter (fun i => decide (1 / 1000 < diffAt o a b c i) && decide (i < 5))).map
        (fun i => LogLine.mismatch i (o i) (expectedAt a b c i)) ∧
    ∀ i < n, 1 / 1000 < diffAt o a b c i →
      (verifyLoop o a b c n).success = false ∧
        diffAt o a b c i ≤ (verifyLoop o a b c n).max_diff := by
  constructor
  · rw [verifyLoop, verify_foldl_lines]
    rfl
  · intro i hi hd
    constructor
    · rcases hs : (verifyLoop o a b c n).success with _ | _
      · rfl
      · rw [verifyLoop, verify_foldl_success] at hs
        exact absurd hd (not_lt.mpr (hs.2 i (List.mem_range.mpr hi)))
    · exact verify_foldl_max_ge o a b c (List.range n) ⟨true, 0, []⟩ i (List.mem_range.mpr hi) hd

/-- Concrete run of the amended C2 theorem: the lone violation at index 5
clears the success flag even though nothing is printed. -/
theorem printed_mismatches_are_low_index_violations_app :
    (verifyLoop (fun i => if i = 5 then (1 : ℚ) else 0) (fun _ => 0) (fun _ => 0) (fun _ => 0)
      6).success = false :=
  ((printed_mismatches_are_low_index_violations (fun i => if i = 5 then (1 : ℚ) else 0)
    (fun _ => 0) (fun _ => 0) (fun _ => 0) 6).2 5 (by norm_num)
    (by norm_num [diffAt, expectedAt])).1

theorem stressLoop_ok_lt (env : DriverEnv) :
    ∀ (fuel iters : ℕ) (out : List LogLine) (n : ℕ) (l : List LogLine),
      stressLoop env fuel iters out = some (Except.ok (n, l)) → iters < n := by
  intro fuel
  induction fuel with
  | zero => intro iters out n l h; exact absurd h (by simp [stressLoop])
  | succ fuel ih =>
    intro iters out n l h
    rw [stressLoop] at h
    rcases hinf : env.infer (iters + 1) with e | u
    · rw [hinf] at h
      exact absurd h (by simp)
    · rw [hinf] at h
      by_cases ht : 30 ≤ env.elapsed (iters + 1)
      · rw [if_pos ht] at h
        simp only [Option.some.injEq, Except.ok.injEq, Prod.mk.injEq] at h
        omega
      · rw [if_neg ht] at h
        by_cases h10 : (iters + 1) % 10 = 0
        · rw [if_pos h10] at h
          exact Nat.lt_of_succ_lt (ih (iters + 1) _ n l h)
        · rw [if_neg h10] at h
          exact Nat.lt_of_succ_lt (ih (iters + 1) _ n l h)

theorem stressLoop_reaches (env : DriverEnv) (hinf : ∀ k, env.infer k = Except.ok ()) :
    ∀ (fuel iters : ℕ) (out : List LogLine),
      (∀ j, iters < j → j ≤ iters + fuel → env.elapsed j < 30) →
      30 ≤ env.elapsed (iters + fuel + 1) →
      ∃ lines, stressLoop env (fuel + 1) iters out = some (Except.ok (iters + fuel + 1, lines)) := by
  intro fuel
  induction fuel with
  | zero =>
    intro iters out _ hge
    refine ⟨out, ?_⟩
    rw [stressLoop, hinf (iters + 1)]
    rw [if_pos (by simpa using hge)]
  | succ fuel ih =>
    intro iters out hlt hge
    have h1 : env.elapsed (iters + 1) < 30 := hlt (iters + 1) (by omega) (by omega)
    have hlt2 : ∀ j, iters + 1 < j → j ≤ iters + 1 + fuel → env.elapsed j < 30 := by
      intro j hj1 hj2
      exact hlt j (by omega) (by omega)
    have hge2 : 30 ≤ env.elapsed (iters + 1 + fuel + 1) := by
      have : iters + 1 + fuel + 1 = iters + (fuel + 1) + 1 := by omega
      rw [this]
      exact hge
    rw [stressLoop, hinf (iters + 1)]
    rw [if_neg (not_le.mpr h1)]
    by_cases h10 : (iters + 1) % 10 = 0
    · rw [if_pos h10]
      obtain ⟨lines, hl⟩ := ih (iters + 1) (out ++ [LogLine.progress (iters + 1) (env.elapsed (iters + 1))]) hlt2 hge2
      refine ⟨lines, ?_⟩
      rw [show iters + (fuel + 1) + 1 = iters + 1 + fuel + 1 from by omega]
      exact hl
    · rw [if_neg h10]
      obtain ⟨lines, hl⟩ := ih (iters + 1) out hlt2 hge2
      refine ⟨lines, ?_⟩
      rw [show iters + (fuel + 1) + 1 = iters + 1 + fuel + 1 from by omega]
      exact hl

theorem stressLoop_ok_char (env : DriverEnv) :
    ∀ (fuel iters : ℕ) (out : List LogLine) (n : ℕ) (l : List LogLine),
      stressLoop env fuel iters out = some (Except.ok (n, l)) →
      l = out ++ ((List.range' (iters + 1) (n - 1 - iters)).filter (fun j => decide (j % 10 = 0))).map
          (fun j => LogLine.progress j (env.elapsed j)) ∧
        30 ≤ env.elapsed n ∧ ∀ j, iters < j → j < n → env.elapsed j < 30 := by
  intro fuel
  induction fuel with
  | zero => intro iters out n l h; exact absurd h (by simp [stressLoop])
  | succ fuel ih =>
    intro iters out n l h
    have hlt := stressLoop_ok_lt env (fuel + 1) iters out n l h
    rw [stressLoop] at h
    rcases hinf : env.infer (iters + 1) with e | u
    · rw [hinf] at h
      exact absurd h (by simp)
    · rw [hinf] at h
      by_cases ht : 30 ≤ env.elapsed (iters + 1)
      · rw [if_pos ht] at h
        simp only [Option.some.injEq, Except.ok.injEq, Prod.mk.injEq] at h
        obtain ⟨hn, hl⟩ := h
        refine ⟨?_, by rw [← hn]; exact ht, ?_⟩
        · rw [← hl, ← hn]
          simp
        · intro j hj1 hj2
          omega
      · rw [if_neg ht] at h
        have hn2 : iters + 1 < n := by
          by_cases h10 : (iters + 1) % 10 = 0
          · rw [if_pos h10] at h
            exact stressLoop_ok_lt env fuel (iters + 1) _ n l h
          · rw [if_neg h10] at h
            exact stressLoop_ok_lt env fuel (iters + 1) _ n l h
        have hrange : List.range' (iters + 1) (n - 1 - iters) =
            (iters + 1) :: List.range' (iters + 2) (n - 1 - (iters + 1)) := by
          have h1 : n - 1 - iters = (n - 1 - (iters + 1)) + 1 := by omega
          rw [h1, List.range'_succ]
        by_cases h10 : (iters + 1) % 10 = 0
        · rw [if_pos h10] at h
          obtain ⟨hl2, hge2, hmid⟩ := ih (iters + 1) _ n l h
          refine ⟨?_, hge2, ?_⟩
          · rw [hl2, hrange, List.filter_cons_of_pos (by simpa using h10)]
            simp
          · intro j hj1 hj2
            rcases Nat.lt_or_ge iters.succ j with hj | hj
            · exact hmid j hj hj2
            · have : j = iters + 1 := by omega
              rw [this]
              exact not_le.mp ht
        · rw [if_neg h10] at h
          obtain ⟨hl2, hge2, hmid⟩ := ih (iters + 1) _ n l h
          refine ⟨?_, hge2, ?_⟩
          · rw [hl2, hrange, List.filter_cons_of_neg (by simpa using h10)]
          · intro j hj1 hj2
            rcases Nat.lt_or_ge iters.succ j with hj | hj
            · exact hmid j hj hj2
            · have : j = iters + 1 := by omega
              rw [this]
              exact not_le.mp ht

/-- C4: assuming every inference call returns (modelled as every call
yielding ok and the wall clock eventually reaching 30 seconds, with less
than 30 seconds elapsed at loop entry), the stress loop terminates at the
first iteration whose completion time has reached the 30-second mark: the
final iteration count is at least 1, every earlier iteration completed
before the mark, and the previous iteration's completion time was still
below 30, so the overrun past the mark is at most the final call's duration.
The bound is only checked between completed calls. -/
theorem stress_loop_terminates_after_deadline (env : DriverEnv)
    (hinf : ∀ k, env.infer k = Except.ok ())
    (h0 : env.elapsed 0 < 30)
    (hdiv : ∃ k, 30 ≤ env.elapsed k) :
    ∃ iters lines, stressLoop env iters 0 [] = some (Except.ok (iters, lines)) ∧
      1 ≤ iters ∧ env.elapsed (iters - 1) < 30 ∧ 30 ≤ env.elapsed iters ∧
      ∀ j < iters, env.elapsed j < 30 := by
  classical
  have hspec : 30 ≤ env.elapsed (Nat.find hdiv) := Nat.find_spec hdiv
  have hmin : ∀ j, j < Nat.find hdiv → env.elapsed j < 30 := fun j hj =>
    not_le.mp (Nat.find_min hdiv hj)
  have hk1 : 1 ≤ Nat.find hdiv := by
    rcases Nat.eq_zero_or_pos (Nat.find hdiv) with h | h
    · rw [h] at hspec
      exact absurd hspec (not_le.mpr h0)
    · exact h
  obtain ⟨lines, hrun⟩ := stressLoop_reaches env hinf (Nat.find hdiv - 1) 0 []
    (fun j _ hj2 => hmin j (by omega))
    (by rw [show 0 + (Nat.find hdiv - 1) + 1 = Nat.find hdiv from by omega]; exact hspec)
  rw [show 0 + (Nat.find hdiv - 1) + 1 = Nat.find hdiv from by omega] at hrun
  rw [show (Nat.find hdiv - 1) + 1 = Nat.find hdiv from by omega] at hrun
  exact ⟨Nat.find hdiv, lines, hrun, hk1, hmin _ (by omega), hspec, hmin⟩

/-- Concrete run of the C4 theorem: with 31 seconds elapsed after the first
stress iteration, the loop exits after exactly that iteration. -/
theorem stress_loop_terminates_after_deadline_app :
    ∃ iters lines, stressLoop envOkSmall iters 0 [] = some (Except.ok (iters, lines)) ∧
      1 ≤ iters ∧ envOkSmall.elapsed (iters - 1) < 30 ∧ 30 ≤ envOkSmall.elapsed iters ∧
      ∀ j < iters, envOkSmall.elapsed j < 30 :=
  stress_loop_terminates_after_deadline envOkSmall (fun _ => rfl)
    (by norm_num [envOkSmall]) ⟨1, by norm_num [envOkSmall]⟩

theorem warn_no_exc (ds : List String) :
    ∀ l ∈ (if ds.any containsGPU then ([] : List LogLine)
      else [LogLine.gpuNotFound, LogLine.availDevices ds]), isExc l = false := by
  split
  · intro l hl
    exact absurd hl (List.not_mem_nil l)
  · intro l hl
    rcases List.mem_cons.mp hl with rfl | hl2
    · rfl
    · rw [List.mem_singleton] at hl2
      subst hl2
      rfl

theorem verify_lines_are_mismatches (o a b c : ℕ → ℚ) (n : ℕ) :
    ∀ l ∈ (verifyLoop o a b c n).lines, ∃ i g ex, l = LogLine.mismatch i g ex := by
  intro l hl
  rw [verifyLoop, verify_foldl_lines] at hl
  simp only [List.nil_append, List.mem_map] at hl
  obtain ⟨i, -, rfl⟩ := hl
  exact ⟨i, o i, expectedAt a b c i, rfl⟩

theorem mainRun_cases (env : DriverEnv) (fuel exit : ℕ) (so se : List LogLine)
    (h : mainRun env fuel = some (exit, so, se)) :
    (∃ se1 e, (∀ l ∈ se1, isExc l = false) ∧ exit = 1 ∧ se = se1 ++ [LogLine.exception e]) ∨
    (∃ devices hh ww iters lines,
      env.getAvailableDevices = Except.ok devices ∧
      getHW env.inputShape = some (hh, ww) ∧
      stressLoop env fuel 0 [] = some (Except.ok (iters, lines)) ∧
      exit = 0 ∧
      se = (if devices.any containsGPU then []
        else [LogLine.gpuNotFound, LogLine.availDevices devices]) ∧
      so = [LogLine.registered, LogLine.loadingConfig, LogLine.readingModel, LogLine.compiling,
          LogLine.generating hh ww, LogLine.runningInference, LogLine.verifying] ++
        (mainVerifySt env).lines ++ [verifyReport (mainVerifySt env), LogLine.stressStart] ++
        lines ++ [LogLine.stressDone iters]) := by
  rw [mainRun] at h
  rcases hA : env.addExtension with eA | uA
  · simp only [hA, Option.some.injEq, Prod.mk.injEq] at h
    exact Or.inl ⟨[], eA, fun l hl => absurd hl (List.not_mem_nil l), h.1.symm,
      by rw [← h.2.2]; rfl⟩
  · simp only [hA] at h
    rcases hD : env.getAvailableDevices with eD | devices
    · simp only [hD, Option.some.injEq, Prod.mk.injEq] at h
      exact Or.inl ⟨[], eD, fun l hl => absurd hl (List.not_mem_nil l), h.1.symm,
        by rw [← h.2.2]; rfl⟩
    · simp only [hD] at h
      rcases hR : env.readModel with eR | uR
      · simp only [hR, Option.some.injEq, Prod.mk.injEq] at h
        exact Or.inl ⟨_, eR, warn_no_exc devices, h.1.symm, h.2.2.symm⟩
      · simp only [hR] at h
        rcases hC : env.compileModel with eC | uC
        · simp only [hC, Option.some.injEq, Prod.mk.injEq] at h
          exact Or.inl ⟨_, eC, warn_no_exc devices, h.1.symm, h.2.2.symm⟩
        · simp only [hC] at h
          rcases hQ : env.createInferRequest with eQ | uQ
          · simp only [hQ, Option.some.injEq, Prod.mk.injEq] at h
            exact Or.inl ⟨_, eQ, warn_no_exc devices, h.1.symm, h.2.2.symm⟩
          · simp only [hQ] at h
            rcases hI0 : env.getInputTensor 0 with e0 | u0
            · simp only [hI0, Option.some.injEq, Prod.mk.injEq] at h
              exact Or.inl ⟨_, e0, warn_no_exc devices, h.1.symm, h.2.2.symm⟩
            · simp only [hI0] at h
              rcases hI1 : env.getInputTensor 1 with e1 | u1
              · simp only [hI1, Option.some.injEq, Prod.mk.injEq] at h
                exact Or.inl ⟨_, e1, warn_no_exc devices, h.1.symm, h.2.2.symm⟩
              · simp only [hI1] at h
                rcases hI2 : env.getInputTensor 2 with e2 | u2
                · simp only [hI2, Option.some.injEq, Prod.mk.injEq] at h
                  exact Or.inl ⟨_, e2, warn_no_exc devices, h.1.symm, h.2.2.symm⟩
                · simp only [hI2] at h
                  rcases hHW : getHW env.inputShape with _ | hw
                  · simp only [hHW] at h
                    exact absurd h (by simp)
                  · obtain ⟨hh, ww⟩ := hw
                    simp only [hHW] at h
                    rcases hN : env.infer 0 with eN | uN
                    · simp only [hN, Option.some.injEq, Prod.mk.injEq] at h
                      exact Or.inl ⟨_, eN, warn_no_exc devices, h.1.symm, h.2.2.symm⟩
                    · simp only [hN] at h
                      rcases hO : env.getOutputTensor with eO | uO
                      · simp only [hO, Option.some.injEq, Prod.mk.injEq] at h
                        exact Or.inl ⟨_, eO, warn_no_exc devices, h.1.symm, h.2.2.symm⟩
                      · simp only [hO] at h
                        rcases hS : stressLoop env fuel 0 [] with _ | excr
                        · simp only [hS] at h
                          exact absurd h (by simp)
                        · rcases excr with eS | il
                          · simp only [hS, Option.some.injEq, Prod.mk.injEq] at h
                            exact Or.inl ⟨_, eS, warn_no_exc devices, h.1.symm, h.2.2.symm⟩
                          · obtain ⟨iters, lines⟩ := il
                            simp only [hS, Option.some.injEq, Prod.mk.injEq] at h
                            refine Or.inr ⟨devices, hh, ww, iters, lines, rfl, rfl, rfl,
                              h.1.symm, h.2.2.symm, ?_⟩
                            rw [← h.2.1]
                            simp

/-- C3: a run that returns exits 0 or 1; it exits 1 exactly when an
exception message was printed, in which case exactly one exception message
appears, it is the last thing on stderr (nothing is retried after it), and
it exits 0 on normal completion -- the stress loop finished and its final
count was printed -- regardless of the verification outcome, with no
exception message printed. -/
theorem main_exit_code_spec (env : DriverEnv) (fuel exit : ℕ) (so se : List LogLine)
    (h : mainRun env fuel = some (exit, so, se)) :
    (exit = 0 ∨ exit = 1) ∧
    (exit = 1 ↔ ∃ e, LogLine.exception e ∈ se) ∧
    (exit = 1 → se.countP isExc = 1 ∧ ∃ e, se.getLast? = some (LogLine.exception e)) ∧
    (exit = 0 → (∃ iters, 1 ≤ iters ∧ LogLine.stressDone iters ∈ so) ∧
      ∀ e, LogLine.exception e ∉ se) := by
  rcases mainRun_cases env fuel exit so se h with ⟨se1, e, hw, hexit, hse⟩ |
    ⟨devices, hh, ww, iters, lines, hD, hHW, hS, hexit, hse, hso⟩
  · subst hexit
    subst hse
    have hc0 : se1.countP isExc = 0 := List.countP_eq_zero.mpr (by
      intro l hl
      simp [hw l hl])
    refine ⟨Or.inr rfl, ⟨fun _ => ⟨e, by simp⟩, fun _ => rfl⟩, ?_, ?_⟩
    · intro _
      refine ⟨?_, e, List.getLast?_concat se1⟩
      rw [List.countP_append, hc0]
      rfl
    · intro hcon
      exact absurd hcon (by norm_num)
  · subst hexit
    subst hse
    subst hso
    have hnoexc : ∀ e, LogLine.exception e ∉ (if devices.any containsGPU then ([] : List LogLine)
        else [LogLine.gpuNotFound, LogLine.availDevices devices]) := by
      intro e hmem
      have hfalse := warn_no_exc devices _ hmem
      simp [isExc] at hfalse
    refine ⟨Or.inl rfl, ⟨fun hcon => absurd hcon (by norm_num), ?_⟩,
      fun hcon => absurd hcon (by norm_num), fun _ => ⟨⟨iters, ?_, ?_⟩, hnoexc⟩⟩
    · rintro ⟨e, hmem⟩
      exact absurd hmem (hnoexc e)
    · exact stressLoop_ok_lt env fuel 0 [] iters lines hS
    · simp

/-- Concrete run of the C3 theorem: the healthy one-iteration engine exits 0
with the final iteration count printed and nothing on stderr but the GPU
warning. -/
theorem main_exit_code_spec_app :
    ∃ iters, 1 ≤ iters ∧ LogLine.stressDone iters ∈
      [LogLine.registered, LogLine.loadingConfig, LogLine.readingModel, LogLine.compiling,
       LogLine.generating 2 3, LogLine.runningInference, LogLine.verifying, LogLine.successLine,
       LogLine.stressStart, LogLine.stressDone 1] :=
  ((main_exit_code_spec envOkSmall 1 0
    [LogLine.registered, LogLine.loadingConfig, LogLine.readingModel, LogLine.compiling,
     LogLine.generating 2 3, LogLine.runningInference, LogLine.verifying, LogLine.successLine,
     LogLine.stressStart, LogLine.stressDone 1]
    [LogLine.gpuNotFound, LogLine.availDevices [String.mk ['C', 'P', 'U']]]
    (by rfl)).2.2.2 rfl).1

/-- C6: when no enumerated device name contains "GPU" and the engine
otherwise behaves (every later call succeeds and the stress loop exits
within the given fuel), the program prints the warning pair -- the
not-found line and the line listing every available device -- on stderr,
and still runs every remaining step to completion: it reaches loading,
compiling, inference, verification and the stress test, and exits 0 with
the final iteration count printed. -/
theorem no_gpu_warns_and_continues (env : DriverEnv) (fuel : ℕ) (devices : List String)
    (hh ww iters : ℕ) (lines : List LogLine)
    (hA : env.addExtension = Except.ok ())
    (hD : env.getAvailableDevices = Except.ok devices)
    (hGPU : ∀ d ∈ devices, containsGPU d = false)
    (hR : env.readModel = Except.ok ())
    (hC : env.compileModel = Except.ok ())
    (hQ : env.createInferRequest = Except.ok ())
    (hI : ∀ k, env.getInputTensor k = Except.ok ())
    (hO : env.getOutputTensor = Except.ok ())
    (hHW : getHW env.inputShape = some (hh, ww))
    (hN : env.infer 0 = Except.ok ())
    (hS : stressLoop env fuel 0 [] = some (Except.ok (iters, lines))) :
    mainRun env fuel = some (0,
      [LogLine.registered, LogLine.loadingConfig, LogLine.readingModel, LogLine.compiling,
          LogLine.generating hh ww, LogLine.runningInference, LogLine.verifying] ++
        (mainVerifySt env).lines ++ [verifyReport (mainVerifySt env), LogLine.stressStart] ++
        lines ++ [LogLine.stressDone iters],
      [LogLine.gpuNotFound, LogLine.availDevices devices]) ∧ 1 ≤ iters := by
  have hany : devices.any containsGPU = false := by
    rw [List.any_eq_false]
    intro d hd
    rw [hGPU d hd]
    exact Bool.false_ne_true
  refine ⟨?_, stressLoop_ok_lt env fuel 0 [] iters lines hS⟩
  rw [mainRun, hA, hD, hR, hC, hQ, hI 0, hI 1, hI 2, hHW, hN, hO, hS]
  simp [hany]

/-- Concrete run of the C6 theorem: a CPU-only device list produces the
warning pair on stderr and the run still completes with exit 0. -/
theorem no_gpu_warns_and_continues_app :
    mainRun envOkSmall 1 = some (0,
      [LogLine.registered, LogLine.loadingConfig, LogLine.readingModel, LogLine.compiling,
          LogLine.generating 2 3, LogLine.runningInference, LogLine.verifying] ++
        (mainVerifySt envOkSmall).lines ++
        [verifyReport (mainVerifySt envOkSmall), LogLine.stressStart] ++
        [] ++ [LogLine.stressDone 1],
      [LogLine.gpuNotFound, LogLine.availDevices [String.mk ['C', 'P', 'U']]]) ∧ (1 : ℕ) ≤ 1 :=
  no_gpu_warns_and_continues envOkSmall 1 [String.mk ['C', 'P', 'U']] 2 3 1 [] rfl rfl
    (by intro d hd; rw [List.mem_singleton] at hd; subst hd; rfl)
    rfl rfl rfl (fun _ => rfl) rfl rfl rfl (by rfl)

theorem report_not_special (st : VerifySt) :
    isStressDone (verifyReport st) = false ∧ isProgress (verifyReport st) = false ∧
      isExc (verifyReport st) = false := by
  unfold verifyReport
  split
  · exact ⟨rfl, rfl, rfl⟩
  · exact ⟨rfl, rfl, rfl⟩

/-- C8 amended: during the stress loop a progress line is printed after
every 10th completed iteration except the final one (the exit check runs
before the progress check, so the iteration that crosses the 30-second mark
never prints progress even when its count is a multiple of 10); the final
total iteration count is printed exactly once; and the progress lines on
stdout are exactly those of the non-final iterations divisible by 10. -/
theorem progress_lines_exactly_nonfinal_tenths (env : DriverEnv) (fuel exit : ℕ)
    (so se : List LogLine) (h : mainRun env fuel = some (exit, so, se)) (h0 : exit = 0) :
    ∃ iters lines, stressLoop env fuel 0 [] = some (Except.ok (iters, lines)) ∧ 1 ≤ iters ∧
      LogLine.stressDone iters ∈ so ∧ so.countP isStressDone = 1 ∧
      lines = ((List.range' 1 (iters - 1)).filter (fun j => decide (j % 10 = 0))).map
        (fun j => LogLine.progress j (env.elapsed j)) ∧
      ∀ j t, LogLine.progress j t ∈ so ↔ LogLine.progress j t ∈ lines := by
  rcases mainRun_cases env fuel exit so se h with ⟨se1, e, -, hexit, -⟩ |
    ⟨devices, hh, ww, iters, lines, hD, hHW, hS, hexit, hse, hso⟩
  · rw [h0] at hexit
    exact absurd hexit (by norm_num)
  · obtain ⟨hlchar, -, -⟩ := stressLoop_ok_char env fuel 0 [] iters lines hS
    have hlines : lines = ((List.range' 1 (iters - 1)).filter (fun j => decide (j % 10 = 0))).map
        (fun j => LogLine.progress j (env.elapsed j)) := by
      simpa using hlchar
    have hvm := verify_lines_are_mismatches env.outData (fillAt (env.inSize 0))
      (fillAt (env.inSize 1)) (fillAt (env.inSize 2)) env.outSize
    refine ⟨iters, lines, hS, stressLoop_ok_lt env fuel 0 [] iters lines hS, ?_, ?_, hlines, ?_⟩
    · rw [hso]
      simp
    · rw [hso]
      have c1 : List.countP isStressDone [LogLine.registered, LogLine.loadingConfig,
          LogLine.readingModel, LogLine.compiling, LogLine.generating hh ww,
          LogLine.runningInference, LogLine.verifying] = 0 := by
        simp [List.countP_cons, isStressDone]
      have c2 : (mainVerifySt env).lines.countP isStressDone = 0 :=
        List.countP_eq_zero.mpr (by
          intro l hl
          obtain ⟨i, g, ex, rfl⟩ := hvm l hl
          simp [isStressDone])
      have c3 : lines.countP isStressDone = 0 := by
        rw [hlines]
        refine List.countP_eq_zero.mpr ?_
        intro l hl
        simp only [List.mem_map] at hl
        obtain ⟨j, -, rfl⟩ := hl
        simp [isStressDone]
      simp only [List.countP_append, c1, c2, c3, List.countP_cons, List.countP_nil,
        (report_not_special (mainVerifySt env)).1]
      simp [isStressDone]
    · intro j t
      rw [hso]
      constructor
      · intro hmem
        rcases List.mem_append.mp hmem with h1 | hSd
        · rcases List.mem_append.mp h1 with h2 | hL
          · rcases List.mem_append.mp h2 with h3 | hR
            · rcases List.mem_append.mp h3 with hA | hV
              · simp at hA
              · obtain ⟨i, g, ex, heq⟩ := hvm _ hV
                exact absurd heq (by simp)
            · rcases List.mem_cons.mp hR with heq | hR2
              · have hfalse := (report_not_special (mainVerifySt env)).2.1
                rw [← heq] at hfalse
                simp [isProgress] at hfalse
              · simp at hR2
          · exact hL
        · simp at hSd
      · intro hmem
        exact List.mem_append.mpr (Or.inl (List.mem_append.mpr (Or.inr hmem)))

/-- Concrete run of the amended C8 theorem on the ten-iteration engine. -/
theorem progress_lines_exactly_nonfinal_tenths_app :
    ∃ iters lines, stressLoop envTenIters 10 0 [] = some (Except.ok (iters, lines)) ∧
      1 ≤ iters ∧
      LogLine.stressDone iters ∈
        [LogLine.registered, LogLine.loadingConfig, LogLine.readingModel, LogLine.compiling,
         LogLine.generating 2 3, LogLine.runningInference, LogLine.verifying,
         LogLine.successLine, LogLine.stressStart, LogLine.stressDone 10] ∧
      List.countP isStressDone
        [LogLine.registered, LogLine.loadingConfig, LogLine.readingModel, LogLine.compiling,
         LogLine.generating 2 3, LogLine.runningInference, LogLine.verifying,
         LogLine.successLine, LogLine.stressStart, LogLine.stressDone 10] = 1 ∧
      lines = ((List.range' 1 (iters - 1)).filter (fun j => decide (j % 10 = 0))).map
        (fun j => LogLine.progress j (envTenIters.elapsed j)) ∧
      ∀ j t, LogLine.progress j t ∈
        [LogLine.registered, LogLine.loadingConfig, LogLine.readingModel, LogLine.compiling,
         LogLine.generating 2 3, LogLine.runningInference, LogLine.verifying,
         LogLine.successLine, LogLine.stressStart, LogLine.stressDone 10] ↔
        LogLine.progress j t ∈ lines :=
  progress_lines_exactly_nonfinal_tenths envTenIters 10 0
    [LogLine.registered, LogLine.loadingConfig, LogLine.readingModel, LogLine.compiling,
     LogLine.generating 2 3, LogLine.runningInference, LogLine.verifying, LogLine.successLine,
     LogLine.stressStart, LogLine.stressDone 10]
    [LogLine.gpuNotFound, LogLine.availDevices [String.mk ['C', 'P', 'U']]]
    (by rfl) rfl

/-- Counterexample to C8 as stated: on an engine whose clock first reaches
30 seconds when the 10th iteration completes, the run finishes with exactly
10 completed iterations and its stdout holds no progress line at all --
although 10 is a multiple of 10, the break precedes the progress print -- so
"a progress line is printed after every 10th completed iteration" fails. -/
theorem progress_line_missing_at_final_tenth :
    mainRun envTenIters 10 = some (0,
      [LogLine.registered, LogLine.loadingConfig, LogLine.readingModel, LogLine.compiling,
       LogLine.generating 2 3, LogLine.runningInference, LogLine.verifying, LogLine.successLine,
       LogLine.stressStart, LogLine.stressDone 10],
      [LogLine.gpuNotFound, LogLine.availDevices [String.mk ['C', 'P', 'U']]]) ∧
    List.countP isProgress
      [LogLine.registered, LogLine.loadingConfig, LogLine.readingModel, LogLine.compiling,
       LogLine.generating 2 3, LogLine.runningInference, LogLine.verifying, LogLine.successLine,
       LogLine.stressStart, LogLine.stressDone 10] = 0 ∧
    (10 : ℕ) % 10 = 0 :=
  ⟨by rfl, by rfl, by rfl⟩

/-- C10: reading H and W accesses indices 2 and 3 of input 0's shape, which
is in bounds exactly when the shape has rank at least 4; no step of the
program validates the rank first, so with a rank-3 shape the error branch of
the embedded Option-returning access is reached and the run falls into the
undefined-behaviour case, however well the engine behaves otherwise. -/
theorem shape_hw_access_requires_rank_four :
    (∀ shape : List ℕ, (getHW shape).isSome ↔ 4 ≤ shape.length) ∧
    getHW [1, 3, 8] = none ∧
    ∀ (env : DriverEnv) (fuel : ℕ) (devices : List String),
      env.addExtension = Except.ok () →
      env.getAvailableDevices = Except.ok devices →
      env.readModel = Except.ok () →
      env.compileModel = Except.ok () →
      env.createInferRequest = Except.ok () →
      (∀ k, env.getInputTensor k = Except.ok ()) →
      getHW env.inputShape = none →
      mainRun env fuel = none := by
  refine ⟨?_, rfl, ?_⟩
  · intro shape
    rcases h2 : shape.get? 2 with _ | v2
    · have hlen := List.get?_eq_none.mp h2
      simp only [getHW, h2]
      rcases h3 : shape.get? 3 with _ | v3
      · simp only [Option.isSome_none, Bool.false_eq_true, false_iff]
        omega
      · simp only [Option.isSome_none, Bool.false_eq_true, false_iff]
        omega
    · rcases h3 : shape.get? 3 with _ | v3
      · have hlen := List.get?_eq_none.mp h3
        simp only [getHW, h2, h3, Option.isSome_none, Bool.false_eq_true, false_iff]
        omega
      · obtain ⟨hlt, -⟩ := List.get?_eq_some.mp h3
        simp only [getHW, h2, h3, Option.isSome_some, true_iff]
        omega
  · intro env fuel devices hA hD hR hC hQ hI hHW
    rw [mainRun, hA, hD, hR, hC, hQ, hI 0, hI 1, hI 2, hHW]

/-- Concrete run of the C10 theorem: the rank-3 engine falls into the
undefined out-of-bounds case. -/
theorem shape_hw_access_requires_rank_four_app :
    mainRun envRank3 1 = none :=
  shape_hw_access_requires_rank_four.2.2 envRank3 1 [String.mk ['C', 'P', 'U']] rfl rfl rfl rfl
    rfl (fun _ => rfl) rfl
